import Mathlib

/-!
Verification of the knex adapter (src/adapters/knex.js) of the
moleculerjs database project.

The adapter compiles document-style filter specifications into calls on a
SQL predicate builder, assembles queries (search, sort, limit, offset,
counting), implements CRUD operations over a table of rows, and maps field
definitions to DDL.  We embed the JavaScript value universe as `FVal`, the
knex predicate builder as a clause tree `Builder` evaluated with SQL
operator precedence over a single row, and port the source functions
(`computeQuery`, `assignQueryArrayElements`, `createQuery`, `insert`,
`insertMany`, `removeById`, `createTable`) as Lean functions over those
types.
-/

set_option maxHeartbeats 1000000

namespace KnexAdapter

/-- JavaScript values as they occur in filter specs, query params, rows and
backend return values.  `vundefined` is JavaScript `undefined` (in particular
the result of reading an absent object property). -/
inductive FVal where
  | vundefined
  | vnull
  | vint (n : Int)
  | vstr (s : String)
  | vbool (b : Bool)
  | varr (elems : List FVal)
  | vobj (entries : List (String × FVal))

/-- JavaScript truthiness. -/
def jsTruthy : FVal → Bool
  | .vundefined => false
  | .vnull => false
  | .vint n => n != 0
  | .vstr s => s != ""
  | .vbool b => b
  | .varr _ => true
  | .vobj _ => true

/-- Test for `typeof v === "object"` (true for null, arrays and plain
objects). -/
def isObjType : FVal → Bool
  | .vnull | .varr _ | .vobj _ => true
  | _ => false

/-- Test for `typeof v === "string"`. -/
def isStrType : FVal → Bool
  | .vstr _ => true
  | _ => false

/-- Test for `Array.isArray v`. -/
def isArr : FVal → Bool
  | .varr _ => true
  | _ => false

/-- Test for being a plain object (a mapping). -/
def isMapping : FVal → Bool
  | .vobj _ => true
  | _ => false

def arrElems : FVal → List FVal
  | .varr l => l
  | _ => []

/-- First-match lookup in an entry list (JS objects cannot hold duplicate
keys, so the policy is irrelevant on faithful inputs). -/
def lookupKey (entries : List (String × FVal)) (k : String) : FVal :=
  match entries with
  | [] => .vundefined
  | (k2, v) :: rest => if k2 = k then v else lookupKey rest k

/-- Property access `v[k]`, `undefined` when absent or not an object. -/
def jsGet (v : FVal) (k : String) : FVal :=
  match v with
  | .vobj entries => lookupKey entries k
  | _ => .vundefined

/-- A database row: a flat mapping from column name to value. -/
abbrev Row := List (String × FVal)

def rowGet (r : Row) (k : String) : FVal := lookupKey r k

mutual

/-- Structural value equality, used as the semantics of SQL `=` and of the
strict checks in the source. -/
def fvalBeq : FVal → FVal → Bool
  | .vundefined, .vundefined => true
  | .vnull, .vnull => true
  | .vint a, .vint b => a == b
  | .vstr a, .vstr b => a == b
  | .vbool a, .vbool b => a == b
  | .varr a, .varr b => fvalListBeq a b
  | .vobj a, .vobj b => fvalEntriesBeq a b
  | _, _ => false
termination_by v _ => sizeOf v

def fvalListBeq : List FVal → List FVal → Bool
  | [], [] => true
  | a :: as, b :: bs => fvalBeq a b && fvalListBeq as bs
  | _, _ => false
termination_by l _ => sizeOf l

def fvalEntriesBeq : List (String × FVal) → List (String × FVal) → Bool
  | [], [] => true
  | (k1, v1) :: as, (k2, v2) :: bs => k1 == k2 && fvalBeq v1 v2 && fvalEntriesBeq as bs
  | _, _ => false
termination_by l _ => sizeOf l

end

/-- Ordering of values under SQL comparison operators: numbers compare with
numbers, strings with strings, anything else is incomparable (comparison
false). -/
def fvalCompare : FVal → FVal → Option Ordering
  | .vint a, .vint b => some (compare a b)
  | .vstr a, .vstr b => some (compare a b)
  | _, _ => none

/-- Simple SQL LIKE matcher over character lists, supporting the `%`
wildcard (the only wildcard the adapter ever generates). -/
def likeMatch : List Char → List Char → Bool
  | [], s => s.isEmpty
  | '%' :: ps, s =>
      likeMatch ps s ||
        (match s with
         | [] => false
         | _ :: srest => likeMatch ('%' :: ps) srest)
  | c :: ps, s =>
      match s with
      | [] => false
      | d :: srest => c == d && likeMatch ps srest
termination_by pat s => (sizeOf pat, sizeOf s)

def sqlLike (pat s : String) : Bool := likeMatch pat.toList s.toList

/-- SQL NULL test on a column value: the column is NULL when the row holds
null there or has no such column. -/
def isNullish : FVal → Bool
  | .vnull | .vundefined => true
  | _ => false

/-- Evaluation of one comparison operator (the operator strings the source
passes to `where`). -/
def evalCmpStr (op : String) (x v : FVal) : Bool :=
  if op = "=" then fvalBeq x v
  else if op = "!=" then !(fvalBeq x v)
  else if op = ">" then fvalCompare x v == some .gt
  else if op = ">=" then fvalCompare x v == some .gt || fvalCompare x v == some .eq
  else if op = "<" then fvalCompare x v == some .lt
  else if op = "<=" then fvalCompare x v == some .lt || fvalCompare x v == some .eq
  else if op = "like" then
    match x, v with
    | .vstr s, .vstr p => sqlLike p s
    | _, _ => false
  else if op = "ilike" then
    match x, v with
    | .vstr s, .vstr p => sqlLike p.toLower s.toLower
    | _, _ => false
  else false

/-- Atomic predicates the adapter emits on the knex builder. -/
inductive Atom where
  | cmp (field : String) (op : String) (v : FVal)
  | inList (field : String) (vs : List FVal)
  | notInList (field : String) (vs : List FVal)
  | isNull (field : String)
  | notNull (field : String)
  | raw (condition : FVal) (bindings : FVal)

/-- One WHERE clause of a knex builder: an atom or a parenthesised group,
each carrying its connector to the previous clause (`isOr`) and whether it
is negated (`whereNot`). -/
inductive Clause where
  | atom (isOr : Bool) (negated : Bool) (a : Atom)
  | group (isOr : Bool) (negated : Bool) (sub : List Clause)

/-- The accumulated WHERE clauses of a knex query builder. -/
abbrev Builder := List Clause

def Clause.orFlag : Clause → Bool
  | .atom o _ _ => o
  | .group o _ _ => o

/-- Semantics of `whereRaw` fragments: raw SQL is external to the adapter,
so its row semantics is kept abstract as a parameter. -/
def RawSem : Type := FVal → FVal → Row → Bool

/-- Truth value of one atom over one row. -/
def evalAtom (rs : RawSem) (row : Row) : Atom → Bool
  | .cmp f op v => evalCmpStr op (rowGet row f) v
  | .inList f vs => vs.any (fun v => fvalBeq (rowGet row f) v)
  | .notInList f vs => !(vs.any (fun v => fvalBeq (rowGet row f) v))
  | .isNull f => isNullish (rowGet row f)
  | .notNull f => !(isNullish (rowGet row f))
  | .raw c b => rs c b row

mutual

/-- Truth value of one clause over one row. -/
def evalClause (rs : RawSem) (row : Row) : Clause → Bool
  | .atom _ neg a => if neg then !(evalAtom rs row a) else evalAtom rs row a
  | .group _ neg sub => if neg then !(evalClauses rs row sub) else evalClauses rs row sub
termination_by c => sizeOf c

/-- Truth value of a clause list combined left to right with SQL operator
precedence (AND binds tighter than OR); an empty WHERE list accepts every
row. -/
def evalClauses (rs : RawSem) (row : Row) : List Clause → Bool
  | [] => true
  | c :: rest => evalRest rs row (evalClause rs row c) rest
termination_by l => sizeOf l

def evalRest (rs : RawSem) (row : Row) (acc : Bool) : List Clause → Bool
  | [] => acc
  | c :: rest =>
      if c.orFlag then acc || evalRest rs row (evalClause rs row c) rest
      else evalRest rs row (acc && evalClause rs row c) rest
termination_by l => sizeOf l

end

/-- A fixed raw-SQL semantics for concrete witnesses (no claim input
contains a `$raw` operator, so the choice is irrelevant). -/
def rawSemFalse : RawSem := fun _ _ _ => false

/-- Append a plain (AND-connected) atom, as knex `where`. -/
def whereAtom (q : Builder) (a : Atom) : Builder := q ++ [Clause.atom false false a]

/-- Append a negated atom, as knex `whereNot(field, value)`. -/
def whereNotAtom (q : Builder) (a : Atom) : Builder := q ++ [Clause.atom false true a]

/-- Knex `where` / `orWhere` / `whereNot` invoked with a callback: the
callback's clauses form a parenthesised group; knex emits nothing for a
group whose callback added no clause, so an empty group is dropped.  `fn`
is the method name, dispatched dynamically as in
`assignQueryArrayElements`. -/
def applyGroupFn (q : Builder) (fn : String) (sub : Builder) : Builder :=
  if sub.isEmpty then q
  else if fn = "orWhere" then q ++ [Clause.group true false sub]
  else if fn = "whereNot" then q ++ [Clause.group false true sub]
  else q ++ [Clause.group false false sub]

theorem sizeOf_arrElems_le (v : FVal) : sizeOf (arrElems v) ≤ sizeOf v := by
  cases v <;> simp [arrElems]

theorem prodLexOfLe {a c : Nat} (h1 : a ≤ c) {b d : Nat} (h2 : b < d) :
    Prod.Lex (· < ·) (· < ·) (a, b) (c, d) := by
  cases Nat.lt_or_eq_of_le h1 with
  | inl h => exact Prod.Lex.left _ _ h
  | inr h => subst h; exact Prod.Lex.right _ h2

/-- Which rule of the `computeQuery` operator dispatch chain an entry
`(key, fieldValue)` falls into.  Constructors are ordered exactly like the
if/else chain of the source (knex.js lines 427-471). -/
inductive EntryRule where
  | rIn
  | rNin
  | rCmp (op : String)
  | rExists (notNullTest : Bool)
  | rOr
  | rAnd
  | rNor
  | rNot
  | rRaw
  | rScope
  | rIlike
  | rDefault

/-- The operator dispatch chain of `computeQuery` for one entry, in the
exact fixed-priority order of the source. -/
def classifyEntry (key : String) (v : FVal) : EntryRule :=
  if key = "$in" ∧ isArr v then .rIn
  else if key = "$nin" ∧ isArr v then .rNin
  else if key = "$gt" then .rCmp ">"
  else if key = "$gte" then .rCmp ">="
  else if key = "$lt" then .rCmp "<"
  else if key = "$lte" then .rCmp "<="
  else if key = "$eq" then .rCmp "="
  else if key = "$ne" then .rCmp "!="
  else if key = "$exists" ∧ fvalBeq v (FVal.vbool true) then .rExists true
  else if key = "$exists" ∧ fvalBeq v (FVal.vbool false) then .rExists false
  else if key = "$or" ∧ isArr v then .rOr
  else if key = "$and" ∧ isArr v then .rAnd
  else if key = "$nor" ∧ isArr v then .rNor
  else if key = "$not" then .rNot
  else if key = "$raw" then .rRaw
  else if isObjType v then .rScope
  else if key = "$ilike" then .rIlike
  else .rDefault

mutual

/-- Lean embedding of `KnexAdapter.computeQuery` (knex.js lines 415-475):
compiles a filter spec onto the builder.  Non-objects (null, scalars,
arrays) are rejected by the guard on line 416 and leave the builder
unchanged. -/
def computeQuery (q : Builder) (query : FVal) (fieldName : String) : Builder :=
  match query with
  | .vobj entries => computeEntries q entries fieldName
  | _ => q
termination_by (sizeOf query, 0)

/-- The `Object.entries(query).forEach` loop of `computeQuery`, threading
the builder through the entries in insertion order. -/
def computeEntries (q : Builder) (entries : List (String × FVal)) (fieldName : String) :
    Builder :=
  match entries with
  | [] => q
  | (key, v) :: rest => computeEntries (computeEntry q key v fieldName) rest fieldName
termination_by (sizeOf entries, 0)

/-- Effect of one `(key, fieldValue)` entry of `computeQuery` on the
builder, rule by rule. -/
def computeEntry (q : Builder) (key : String) (v : FVal) (fieldName : String) : Builder :=
  match classifyEntry key v with
  | .rIn => whereAtom q (Atom.inList fieldName (arrElems v))
  | .rNin => whereAtom q (Atom.notInList fieldName (arrElems v))
  | .rCmp op => whereAtom q (Atom.cmp fieldName op v)
  | .rExists b => whereAtom q (if b then Atom.notNull fieldName else Atom.isNull fieldName)
  | .rOr =>
      applyGroupFn q "where"
        (assignQueryArrayElements [] (arrElems v) "where" "orWhere" fieldName)
  | .rAnd =>
      applyGroupFn q "where" (assignQueryArrayElements [] (arrElems v) "where" "" fieldName)
  | .rNor =>
      applyGroupFn q "where" (assignQueryArrayElements [] (arrElems v) "whereNot" "" fieldName)
  | .rNot =>
      if isObjType v then applyGroupFn q "whereNot" (computeQuery [] v fieldName)
      else whereNotAtom q (Atom.cmp fieldName "=" v)
  | .rRaw =>
      if isStrType v then whereAtom q (Atom.raw v .vundefined)
      else if isObjType v then whereAtom q (Atom.raw (jsGet v "condition") (jsGet v "bindings"))
      else q
  | .rScope => applyGroupFn q "where" (computeQuery [] v key)
  | .rIlike => whereAtom q (Atom.cmp fieldName "ilike" v)
  | .rDefault => whereAtom q (Atom.cmp key "=" v)
termination_by (sizeOf v, 1)
decreasing_by
  · exact prodLexOfLe (sizeOf_arrElems_le v) (Nat.lt_succ_self 0)
  · exact prodLexOfLe (sizeOf_arrElems_le v) (Nat.lt_succ_self 0)
  · exact prodLexOfLe (sizeOf_arrElems_le v) (Nat.lt_succ_self 0)
  · exact Prod.Lex.right _ (Nat.lt_succ_self 0)
  · exact Prod.Lex.right _ (Nat.lt_succ_self 0)

/-- Lean embedding of the inner helper `assignQueryArrayElements`
(knex.js lines 418-423): the first element uses `firstElementQuery`,
every other element uses `everyOtherElementQuery` when that string is
non-empty (truthy) and `firstElementQuery` otherwise. -/
def assignQueryArrayElements (b : Builder) (value : List FVal) (firstFn otherFn : String)
    (fieldName : String) : Builder :=
  match value with
  | [] => b
  | e :: rest =>
      assignTail (applyGroupFn b firstFn (computeQuery [] e fieldName)) rest
        (if otherFn = "" then firstFn else otherFn) fieldName
termination_by (sizeOf value, 0)

/-- Elements after the first in `assignQueryArrayElements`. -/
def assignTail (b : Builder) (value : List FVal) (fn : String) (fieldName : String) : Builder :=
  match value with
  | [] => b
  | e :: rest => assignTail (applyGroupFn b fn (computeQuery [] e fieldName)) rest fn fieldName
termination_by (sizeOf value, 0)

end

/-! Query assembly (`createQuery`, knex.js lines 360-404). -/

/-- One ORDER BY entry: a raw ordering expression (`orderByRaw`) or a
column with a direction (`orderBy`). -/
inductive OrderItem where
  | ordRaw (expr : String)
  | ordBy (field : String) (descend : Bool)

/-- The observable state of a knex query builder as assembled by
`createQuery`: counting mode, WHERE clauses, ORDER BY entries, limit and
offset. -/
structure KQuery where
  counting : Bool
  wheres : Builder
  orders : List OrderItem
  limit : Option Int
  offset : Option Int

def KQuery.countStar (q : KQuery) : KQuery := { q with counting := true }

def KQuery.orderBy (q : KQuery) (field : String) (descend : Bool) : KQuery :=
  { q with orders := q.orders ++ [OrderItem.ordBy field descend] }

def KQuery.orderByRaw (q : KQuery) (expr : String) : KQuery :=
  { q with orders := q.orders ++ [OrderItem.ordRaw expr] }

def KQuery.setLimit (q : KQuery) (n : Int) : KQuery := { q with limit := some n }

def KQuery.setOffset (q : KQuery) (n : Int) : KQuery := { q with offset := some n }

/-- Adapter configuration consumed by query assembly: the identity column
name and whether the configured dialect is MSSQL. -/
structure AdapterCfg where
  idFieldName : String
  clientIsMssql : Bool

/-- The `sort` query parameter: a single token string or a sequence of
token strings. -/
inductive SortParam where
  | single (s : String)
  | multiple (l : List String)

/-- Query parameters as consumed by `createQuery`.  `query`, `search`,
`limit` and `offset` keep the loose JavaScript typing the source checks at
runtime. -/
structure QueryParams where
  query : FVal
  search : FVal
  searchFields : Option (List String)
  sort : Option SortParam
  limit : FVal
  offset : FVal

/-- JavaScript truthiness of the `sort` parameter. -/
def sortTruthy : Option SortParam → Bool
  | none => false
  | some (.single s) => s != ""
  | some (.multiple _) => true

/-- Normalisation `if (typeof pSort == "string") pSort = [pSort]`. -/
def normalizeSort : SortParam → List String
  | .single s => [s]
  | .multiple l => l

def indexEntries (vs : List FVal) : List (String × FVal) :=
  vs.enum.map (fun p => (toString p.1, p.2))

/-- Effect of `params.query ? Object.assign({}, params.query) : {}`:
falsy values give an empty object, plain objects are shallow-copied, and
`Object.assign` spreads arrays and strings into index-keyed entries. -/
def queryParamToObject (v : FVal) : FVal :=
  if jsTruthy v then
    match v with
    | .vobj kvs => .vobj kvs
    | .varr xs => .vobj (indexEntries xs)
    | .vstr s => .vobj (indexEntries (s.toList.map (fun c => FVal.vstr (String.singleton c))))
    | _ => .vobj []
  else .vobj []

def applySearchTail (b : Builder) (search : String) (fields : List String) : Builder :=
  match fields with
  | [] => b
  | f :: rest =>
      applySearchTail
        (b ++ [Clause.atom true false (Atom.cmp f "like" (FVal.vstr ("%" ++ search ++ "%")))])
        search rest

/-- The free-text search loop: the first search field is a plain `where`
LIKE predicate, every further field is OR-joined. -/
def applySearch (b : Builder) (search : String) (fields : List String) : Builder :=
  match fields with
  | [] => b
  | f :: rest =>
      applySearchTail
        (b ++ [Clause.atom false false (Atom.cmp f "like" (FVal.vstr ("%" ++ search ++ "%")))])
        search rest

/-- The sort token loop: a leading `&` passes the remainder to
`orderByRaw`, a leading `-` orders descending, anything else ascending. -/
def applySort (q : KQuery) (tokens : List String) : KQuery :=
  match tokens with
  | [] => q
  | t :: rest =>
      applySort
        (if t.startsWith "&" then q.orderByRaw (t.drop 1)
         else if t.startsWith "-" then q.orderBy (t.drop 1) true
         else q.orderBy t false) rest

/-- Lean embedding of `KnexAdapter.createQuery` (knex.js lines 360-404). -/
def createQuery (cfg : AdapterCfg) (params : Option QueryParams) (counting : Bool) : KQuery :=
  let q0 : KQuery := { counting := false, wheres := [], orders := [], limit := none, offset := none }
  let q1 := if counting then q0.countStar else q0
  match params with
  | none => q1
  | some p =>
      let queryObj := queryParamToObject p.query
      let q2 := { q1 with wheres := computeQuery q1.wheres queryObj "" }
      let q3 :=
        match p.search, p.searchFields with
        | FVal.vstr s, some fields =>
            if s != "" then { q2 with wheres := applySearch q2.wheres s fields } else q2
        | _, _ => q2
      let q4 :=
        if ¬counting ∧ sortTruthy p.sort then
          match p.sort with
          | some sp => applySort q3 (normalizeSort sp)
          | none => q3
        else q3
      let q5 :=
        match p.limit with
        | FVal.vint n => if ¬counting ∧ n > 0 then q4.setLimit n else q4
        | _ => q4
      match p.offset with
      | FVal.vint n =>
          if ¬counting ∧ n > 0 then
            (if sortTruthy p.sort = false ∧ cfg.clientIsMssql then
              (q5.orderBy cfg.idFieldName false).setOffset n
             else q5.setOffset n)
          else q5
      | _ => q5

/-! CRUD models (knex.js lines 125-331).  The table is a list of rows; the
per-row insert primitive of the underlying backend is a parameter `prim`
returning the updated table and the backend's returned value array, or an
error.  The knex `transaction` capability is modelled by its documented
contract: the body runs against the state, a failure restores the original
state (rollback) and surfaces the error, success commits. -/

abbrev DB := List Row

/-- Rows matched by the WHERE clauses of an assembled query, in table
order. -/
def runQueryRows (rs : RawSem) (db : DB) (q : KQuery) : List Row :=
  db.filter (fun r => evalClauses rs r q.wheres)

def emptyParams : QueryParams :=
  { query := .vundefined, search := .vundefined, searchFields := none, sort := none,
    limit := .vundefined, offset := .vundefined }

/-- Lean embedding of `findOne`: first row of the assembled query. -/
def findOneModel (rs : RawSem) (cfg : AdapterCfg) (db : DB) (params : Option QueryParams) :
    Option Row :=
  (runQueryRows rs db (createQuery cfg params false)).head?

/-- Lean embedding of `findById`: `findOne` with an equality filter on the
identity field. -/
def findByIdModel (rs : RawSem) (cfg : AdapterCfg) (db : DB) (id : FVal) : Option Row :=
  findOneModel rs cfg db
    (some { emptyParams with query := FVal.vobj [(cfg.idFieldName, id)] })

/-- The id-resolution step of `insert`: unwrap a backend value that is an
object keyed by the identity field. -/
def unwrapIdValue (idField : String) (r : FVal) : FVal :=
  if isObjType r then jsGet r idField else r

def isUndefined : FVal → Bool
  | .vundefined => true
  | _ => false

/-- Modelled from the spec: the identity-resolution rule §4.3 states for
`insert` — the caller-supplied id is honored if present and
`generated = "user"`; otherwise the backend's returned value is used,
unwrapped when it is an object keyed by the identity field.  The source's
`insert` does not consult `generated`, so this definition exists to be
compared against the code's behaviour. -/
def specResolveInsertId (generated : Option String) (idField : String) (entity : Row)
    (res : List FVal) : FVal :=
  if isUndefined (rowGet entity idField) = false ∧ generated = some "user" then
    rowGet entity idField
  else unwrapIdValue idField (res.headD FVal.vundefined)

def rowFVal : Option Row → FVal
  | some r => FVal.vobj r
  | none => FVal.vundefined

/-- Lean embedding of `insert` (knex.js lines 191-204): one backend insert;
when the returned array is non-empty, resolve the identity (a truthy
caller-supplied id wins, otherwise the first returned value), unwrap an
object-shaped id, and re-read the row by that identity; otherwise return
the raw result. -/
def insertModel (prim : DB → Row → Except String (DB × List FVal)) (rs : RawSem)
    (cfg : AdapterCfg) (db : DB) (entity : Row) : Except String FVal × DB :=
  match prim db entity with
  | .error e => (.error e, db)
  | .ok (db2, res) =>
      if res.isEmpty then (.ok (FVal.varr res), db2)
      else
        let id0 := rowGet entity cfg.idFieldName
        let id1 := if jsTruthy id0 then id0 else res.headD FVal.vundefined
        let id2 := unwrapIdValue cfg.idFieldName id1
        (.ok (rowFVal (findByIdModel rs cfg db2 id2)), db2)

/-- The transaction body of `insertMany`: the per-entity inserts in input
order, collecting each insert's returned value array. -/
def runInserts (prim : DB → Row → Except String (DB × List FVal)) :
    DB → List Row → Except String (DB × List (List FVal))
  | db, [] => .ok (db, [])
  | db, e :: rest =>
      match prim db e with
      | .error err => .error err
      | .ok (db2, rvs) =>
          match runInserts prim db2 rest with
          | .error err => .error err
          | .ok (db3, rss) => .ok (db3, rvs :: rss)

/-- Lean embedding of `findByIds`: rows whose identity is in the list, in
table order. -/
def findByIdsModel (cfg : AdapterCfg) (db : DB) (ids : List FVal) : List Row :=
  db.filter (fun r => ids.any (fun i => fvalBeq (rowGet r cfg.idFieldName) i))

/-- Lean embedding of `insertMany` (knex.js lines 215-229): all per-entity
inserts inside one transaction (error means rollback to the incoming
state), then flatten the returned arrays, unwrap object-shaped ids, and
optionally re-read the entities. -/
def insertManyModel (prim : DB → Row → Except String (DB × List FVal)) (cfg : AdapterCfg)
    (db : DB) (entities : List Row) (returnEntities : Bool) :
    Except String (List FVal) × DB :=
  match runInserts prim db entities with
  | .error e => (.error e, db)
  | .ok (db2, rss) =>
      let ids := (rss.flatten).map (unwrapIdValue cfg.idFieldName)
      if returnEntities then (.ok ((findByIdsModel cfg db2 ids).map FVal.vobj), db2)
      else (.ok ids, db2)

/-- Lean embedding of `removeById` (knex.js lines 304-307): delete the rows
whose identity equals `id`, return the id. -/
def removeByIdModel (cfg : AdapterCfg) (db : DB) (id : FVal) : DB × FVal :=
  (db.filter (fun r => !(fvalBeq (rowGet r cfg.idFieldName) id)), id)

/-! Schema builder model (`createTable`, knex.js lines 484-534).  The
builder's supported column-type vocabulary is the property set of the knex
table builder, kept abstract as a list of names. -/

/-- A field definition as supplied by the host service. -/
structure FieldDef where
  columnName : String
  columnType : String
  primaryKey : Bool
  generated : Option String
  columnLength : Option Int
  max : Option Int
  length : Option Int
  virtual : Bool

/-- A column of a created table: an auto-incrementing integer or a typed
column with an optional length. -/
inductive ColSpec where
  | increments (name : String) (primary : Bool)
  | typed (ty : String) (name : String) (len : Option Int) (primary : Bool)

/-- The shape of an index definition's `fields`. -/
inductive IdxFields where
  | single (s : String)
  | list (l : List String)
  | mapping (kvs : List (String × FVal))

structure IndexDef where
  fields : IdxFields
  name : Option String
  unique : Bool
  type : Option String

/-- An index as created on a table. -/
structure TableIndex where
  fields : IdxFields
  name : Option String
  unique : Bool
  type : Option String

/-- Lean embedding of `createTableIndex` (knex.js lines 567-575): a plain
object `fields` is replaced by its keys; unique indexes drop the type
hint. -/
def createTableIndexModel (d : IndexDef) : TableIndex :=
  let f :=
    match d.fields with
    | .mapping kvs => IdxFields.list (kvs.map Prod.fst)
    | other => other
  if d.unique then { fields := f, name := d.name, unique := true, type := none }
  else { fields := f, name := d.name, unique := false, type := d.type }

structure TableDef where
  cols : List ColSpec
  indexes : List TableIndex

abbrev SchemaState := List (String × TableDef)

def hasTable (st : SchemaState) (name : String) : Bool := st.any (fun p => p.1 == name)

def dropTableModel (st : SchemaState) (name : String) : SchemaState :=
  st.filter (fun p => p.1 != name)

/-- JavaScript `a || b` over optional lengths (0 is falsy). -/
def jsOrInt (a b : Option Int) : Option Int :=
  match a with
  | some n => if n != 0 then some n else b
  | none => b

def resolveStringLen (f : FieldDef) : Option Int := jsOrInt f.columnLength (jsOrInt f.max f.length)

/-- The column-building loop of the `createTable` callback: skips virtual
fields, throws on the first `columnType` missing from the builder's
vocabulary, special-cases the primary key (`generated = "user"` keeps the
declared type, otherwise an auto-incrementing column) and string
lengths. -/
def buildColumns (vocab : List String) : List FieldDef → Except String (List ColSpec)
  | [] => .ok []
  | f :: rest =>
      if f.virtual then buildColumns vocab rest
      else if !(vocab.contains f.columnType) then
        .error ("Field " ++ f.columnName ++ " columnType " ++ f.columnType ++
          " is not a valid type.")
      else
        let col :=
          if f.primaryKey then
            if f.generated == some "user" then ColSpec.typed f.columnType f.columnName none true
            else ColSpec.increments f.columnName true
          else
            if f.columnType == "string" then
              ColSpec.typed "string" f.columnName (resolveStringLen f) false
            else ColSpec.typed f.columnType f.columnName none false
        match buildColumns vocab rest with
        | .error e => .error e
        | .ok cols => .ok (col :: cols)

structure CreateTableOpts where
  dropTableIfExists : Option Bool
  createIndexes : Bool

/-- Lean embedding of `createTable` (knex.js lines 484-534).  Phase 1:
unless `dropTableIfExists` is `false`, an existing table of the same name
is dropped.  Phase 2: the table-builder callback runs; a missing column
type throws, aborting the create DDL (the already-issued drop is not
undone); otherwise the table is created with its columns and, when
requested, the service's declared indexes. -/
def createTableModel (vocab : List String) (tableName : String) (svcFields : List FieldDef)
    (svcIndexes : Option (List IndexDef)) (st : SchemaState)
    (fieldsOpt : Option (List FieldDef)) (opts : CreateTableOpts) :
    Option String × SchemaState :=
  let fields := fieldsOpt.getD svcFields
  let st1 :=
    if opts.dropTableIfExists ≠ some false ∧ hasTable st tableName then
      dropTableModel st tableName
    else st
  match buildColumns vocab fields with
  | .error e => (some e, st1)
  | .ok cols =>
      let idxs :=
        if opts.createIndexes then
          match svcIndexes with
          | some defs => defs.map createTableIndexModel
          | none => []
        else []
      (none, st1 ++ [(tableName, { cols := cols, indexes := idxs })])

/-! Basic shape lemmas about the builder operations and `computeQuery`. -/

theorem applyGroupFn_empty (q : Builder) (fn : String) : applyGroupFn q fn [] = q := by
  simp [applyGroupFn]

theorem applyGroupFn_where {sub : Builder} (h : sub ≠ []) (q : Builder) :
    applyGroupFn q "where" sub = q ++ [Clause.group false false sub] := by
  simp [applyGroupFn, h]

theorem applyGroupFn_orWhere {sub : Builder} (h : sub ≠ []) (q : Builder) :
    applyGroupFn q "orWhere" sub = q ++ [Clause.group true false sub] := by
  simp [applyGroupFn, h]

theorem applyGroupFn_whereNot {sub : Builder} (h : sub ≠ []) (q : Builder) :
    applyGroupFn q "whereNot" sub = q ++ [Clause.group false true sub] := by
  simp [applyGroupFn, h]

theorem applyGroupFn_append (q : Builder) (fn : String) (sub : Builder) :
    applyGroupFn q fn sub = q ++ applyGroupFn [] fn sub := by
  unfold applyGroupFn
  split_ifs <;> simp

/-- Every dispatch rule only appends to the incoming builder, so compiling
against `q` equals `q` followed by compiling against a fresh builder. -/
theorem computeEntry_append (q : Builder) (key : String) (v : FVal) (fieldName : String) :
    computeEntry q key v fieldName = q ++ computeEntry [] key v fieldName := by
  cases hcl : classifyEntry key v <;>
    simp only [computeEntry, hcl] <;>
    (try split_ifs) <;>
    simp [whereAtom, whereNotAtom, applyGroupFn_append q]

theorem computeEntries_append (entries : List (String × FVal)) (fieldName : String) :
    ∀ q, computeEntries q entries fieldName = q ++ computeEntries [] entries fieldName := by
  induction entries with
  | nil => intro q; simp [computeEntries]
  | cons kv rest ih =>
      intro q
      obtain ⟨key, v⟩ := kv
      simp only [computeEntries]
      rw [ih, ih (computeEntry [] key v fieldName), computeEntry_append]
      simp

theorem computeQuery_append (q : Builder) (query : FVal) (fieldName : String) :
    computeQuery q query fieldName = q ++ computeQuery [] query fieldName := by
  cases query <;> simp [computeQuery] <;> exact computeEntries_append _ _ q

theorem assignTail_append (fn fieldName : String) :
    ∀ (value : List FVal) (b : Builder),
      assignTail b value fn fieldName = b ++ assignTail [] value fn fieldName := by
  intro value
  induction value with
  | nil => intro b; simp [assignTail]
  | cons e rest ih =>
      intro b
      simp only [assignTail]
      rw [ih, ih (applyGroupFn [] fn (computeQuery [] e fieldName)), applyGroupFn_append b]
      simp

/-! Evaluation lemmas: unfolding equations and append laws respecting SQL
precedence (AND binds tighter than OR). -/

theorem evalClauses_nil (rs : RawSem) (row : Row) : evalClauses rs row [] = true := by
  simp [evalClauses]

theorem evalClauses_cons (rs : RawSem) (row : Row) (c : Clause) (l : List Clause) :
    evalClauses rs row (c :: l) = evalRest rs row (evalClause rs row c) l := by
  simp [evalClauses]

theorem evalRest_nil (rs : RawSem) (row : Row) (acc : Bool) : evalRest rs row acc [] = acc := by
  simp [evalRest]

theorem evalClause_atom (rs : RawSem) (row : Row) (o neg : Bool) (a : Atom) :
    evalClause rs row (Clause.atom o neg a) =
      (if neg then !(evalAtom rs row a) else evalAtom rs row a) := by
  simp [evalClause]

theorem evalClause_group (rs : RawSem) (row : Row) (o neg : Bool) (sub : List Clause) :
    evalClause rs row (Clause.group o neg sub) =
      (if neg then !(evalClauses rs row sub) else evalClauses rs row sub) := by
  simp [evalClause]

theorem evalClauses_singleton (rs : RawSem) (row : Row) (c : Clause) :
    evalClauses rs row [c] = evalClause rs row c := by
  simp [evalClauses, evalRest]

theorem evalRest_append_or (rs : RawSem) (row : Row) {c2 : Clause} (hc : c2.orFlag = true) :
    ∀ (l : List Clause) (acc : Bool),
      evalRest rs row acc (l ++ [c2]) = (evalRest rs row acc l || evalClause rs row c2) := by
  intro l
  induction l with
  | nil => intro acc; simp [evalRest, hc]
  | cons c rest ih =>
      intro acc
      by_cases ho : c.orFlag <;>
        simp [evalRest, ho, ih, Bool.or_assoc]

theorem evalClauses_append_or (rs : RawSem) (row : Row) {l : List Clause} (hl : l ≠ [])
    {c2 : Clause} (hc : c2.orFlag = true) :
    evalClauses rs row (l ++ [c2]) = (evalClauses rs row l || evalClause rs row c2) := by
  cases l with
  | nil => exact absurd rfl hl
  | cons c rest => simp [evalClauses_cons, evalRest_append_or rs row hc]

theorem evalRest_append_and (rs : RawSem) (row : Row) {c2 : Clause} (hc : c2.orFlag = false) :
    ∀ (l : List Clause) (acc : Bool), (∀ c ∈ l, c.orFlag = false) →
      evalRest rs row acc (l ++ [c2]) = (evalRest rs row acc l && evalClause rs row c2) := by
  intro l
  induction l with
  | nil => intro acc _; simp [evalRest, hc]
  | cons c rest ih =>
      intro acc hall
      have hcf : c.orFlag = false := hall c (List.mem_cons_self c rest)
      have hrest : ∀ c3 ∈ rest, c3.orFlag = false := fun c3 hm => hall c3 (List.mem_cons_of_mem c hm)
      simp [evalRest, hcf, ih _ hrest]

theorem evalClauses_append_and (rs : RawSem) (row : Row) {l : List Clause}
    (hall : ∀ c ∈ l, c.orFlag = false) {c2 : Clause} (hc : c2.orFlag = false) :
    evalClauses rs row (l ++ [c2]) = (evalClauses rs row l && evalClause rs row c2) := by
  cases l with
  | nil => simp [evalClauses_nil, evalClauses_singleton]
  | cons c rest =>
      have hrest : ∀ c3 ∈ rest, c3.orFlag = false :=
        fun c3 hm => hall c3 (List.mem_cons_of_mem c hm)
      simp [evalClauses_cons, evalRest_append_and rs row hc _ _ hrest]

/-! Evaluation of the element folds of `assignQueryArrayElements`, one per
logical operator. -/

theorem assignTail_or_eval (rs : RawSem) (row : Row) (fieldName : String) :
    ∀ (rest : List FVal) (b : Builder), b ≠ [] →
      (∀ e ∈ rest, computeQuery [] e fieldName ≠ []) →
      evalClauses rs row (assignTail b rest "orWhere" fieldName) =
        (evalClauses rs row b ||
          rest.any (fun e => evalClauses rs row (computeQuery [] e fieldName))) := by
  intro rest
  induction rest with
  | nil => intro b hb _; simp [assignTail]
  | cons e r ih =>
      intro b hb hsub
      have hce : computeQuery [] e fieldName ≠ [] := hsub e (List.mem_cons_self e r)
      have hcr : ∀ e2 ∈ r, computeQuery [] e2 fieldName ≠ [] :=
        fun e2 hm => hsub e2 (List.mem_cons_of_mem e hm)
      simp only [assignTail]
      rw [applyGroupFn_orWhere hce b]
      rw [ih _ (by simp) hcr]
      rw [evalClauses_append_or rs row hb (by simp [Clause.orFlag])]
      simp [evalClause_group, Bool.or_assoc]

theorem assignTail_and_eval (rs : RawSem) (row : Row) (fieldName : String) :
    ∀ (rest : List FVal) (b : Builder), (∀ c ∈ b, c.orFlag = false) →
      (∀ e ∈ rest, computeQuery [] e fieldName ≠ []) →
      evalClauses rs row (assignTail b rest "where" fieldName) =
        (evalClauses rs row b &&
          rest.all (fun e => evalClauses rs row (computeQuery [] e fieldName))) := by
  intro rest
  induction rest with
  | nil => intro b _ _; simp [assignTail]
  | cons e r ih =>
      intro b hb hsub
      have hce : computeQuery [] e fieldName ≠ [] := hsub e (List.mem_cons_self e r)
      have hcr : ∀ e2 ∈ r, computeQuery [] e2 fieldName ≠ [] :=
        fun e2 hm => hsub e2 (List.mem_cons_of_mem e hm)
      simp only [assignTail]
      rw [applyGroupFn_where hce b]
      have hb2 : ∀ c ∈ b ++ [Clause.group false false (computeQuery [] e fieldName)],
          c.orFlag = false := by
        intro c hm
        rcases List.mem_append.1 hm with hm | hm
        · exact hb c hm
        · simp at hm; subst hm; simp [Clause.orFlag]
      rw [ih _ hb2 hcr]
      rw [evalClauses_append_and rs row hb (by simp [Clause.orFlag])]
      simp [evalClause_group, Bool.and_assoc]

theorem assignTail_nor_eval (rs : RawSem) (row : Row) (fieldName : String) :
    ∀ (rest : List FVal) (b : Builder), (∀ c ∈ b, c.orFlag = false) →
      (∀ e ∈ rest, computeQuery [] e fieldName ≠ []) →
      evalClauses rs row (assignTail b rest "whereNot" fieldName) =
        (evalClauses rs row b &&
          rest.all (fun e => !(evalClauses rs row (computeQuery [] e fieldName)))) := by
  intro rest
  induction rest with
  | nil => intro b _ _; simp [assignTail]
  | cons e r ih =>
      intro b hb hsub
      have hce : computeQuery [] e fieldName ≠ [] := hsub e (List.mem_cons_self e r)
      have hcr : ∀ e2 ∈ r, computeQuery [] e2 fieldName ≠ [] :=
        fun e2 hm => hsub e2 (List.mem_cons_of_mem e hm)
      simp only [assignTail]
      rw [applyGroupFn_whereNot hce b]
      have hb2 : ∀ c ∈ b ++ [Clause.group false true (computeQuery [] e fieldName)],
          c.orFlag = false := by
        intro c hm
        rcases List.mem_append.1 hm with hm | hm
        · exact hb c hm
        · simp at hm; subst hm; simp [Clause.orFlag]
      rw [ih _ hb2 hcr]
      rw [evalClauses_append_and rs row hb (by simp [Clause.orFlag])]
      simp [evalClause_group, Bool.and_assoc]

/-- Inner builder compiled for a non-empty `$or` sequence: a disjunction of
the element compilations, provided no element compiles to nothing. -/
theorem orGroup_eval (rs : RawSem) (row : Row) (fieldName : String) {es : List FVal}
    (hne : es ≠ []) (hsub : ∀ e ∈ es, computeQuery [] e fieldName ≠ []) :
    evalClauses rs row (assignQueryArrayElements [] es "where" "orWhere" fieldName) =
      es.any (fun e => evalClauses rs row (computeQuery [] e fieldName)) := by
  cases es with
  | nil => exact absurd rfl hne
  | cons e r =>
      have hce : computeQuery [] e fieldName ≠ [] := hsub e (List.mem_cons_self e r)
      have hcr : ∀ e2 ∈ r, computeQuery [] e2 fieldName ≠ [] :=
        fun e2 hm => hsub e2 (List.mem_cons_of_mem e hm)
      simp only [assignQueryArrayElements]
      rw [applyGroupFn_where hce []]
      rw [if_neg (by simp)]
      rw [assignTail_or_eval rs row fieldName r _ (by simp) hcr]
      simp [evalClauses_singleton, evalClause_group]

/-- Inner builder compiled for an `$and` sequence: a conjunction of the
element compilations, provided no element compiles to nothing. -/
theorem andGroup_eval (rs : RawSem) (row : Row) (fieldName : String) {es : List FVal}
    (hsub : ∀ e ∈ es, computeQuery [] e fieldName ≠ []) :
    evalClauses rs row (assignQueryArrayElements [] es "where" "" fieldName) =
      es.all (fun e => evalClauses rs row (computeQuery [] e fieldName)) := by
  cases es with
  | nil => simp [assignQueryArrayElements, evalClauses_nil]
  | cons e r =>
      have hce : computeQuery [] e fieldName ≠ [] := hsub e (List.mem_cons_self e r)
      have hcr : ∀ e2 ∈ r, computeQuery [] e2 fieldName ≠ [] :=
        fun e2 hm => hsub e2 (List.mem_cons_of_mem e hm)
      simp only [assignQueryArrayElements]
      rw [applyGroupFn_where hce []]
      rw [if_pos trivial]
      rw [assignTail_and_eval rs row fieldName r _ (by simp [Clause.orFlag]) hcr]
      simp [evalClauses_singleton, evalClause_group]

/-- Inner builder compiled for a `$nor` sequence: every element compilation
negated and conjoined, provided no element compiles to nothing. -/
theorem norGroup_eval (rs : RawSem) (row : Row) (fieldName : String) {es : List FVal}
    (hsub : ∀ e ∈ es, computeQuery [] e fieldName ≠ []) :
    evalClauses rs row (assignQueryArrayElements [] es "whereNot" "" fieldName) =
      es.all (fun e => !(evalClauses rs row (computeQuery [] e fieldName))) := by
  cases es with
  | nil => simp [assignQueryArrayElements, evalClauses_nil]
  | cons e r =>
      have hce : computeQuery [] e fieldName ≠ [] := hsub e (List.mem_cons_self e r)
      have hcr : ∀ e2 ∈ r, computeQuery [] e2 fieldName ≠ [] :=
        fun e2 hm => hsub e2 (List.mem_cons_of_mem e hm)
      simp only [assignQueryArrayElements]
      rw [applyGroupFn_whereNot hce []]
      rw [if_pos trivial]
      rw [assignTail_nor_eval rs row fieldName r _ (by simp [Clause.orFlag]) hcr]
      simp [evalClauses_singleton, evalClause_group]

theorem assignQueryArrayElements_ne_nil (fieldName firstFn otherFn : String) {es : List FVal}
    (hne : es ≠ []) (hsub : ∀ e ∈ es, computeQuery [] e fieldName ≠ [])
    (hfn : firstFn = "where" ∨ firstFn = "orWhere" ∨ firstFn = "whereNot") :
    assignQueryArrayElements [] es firstFn otherFn fieldName ≠ [] := by
  cases es with
  | nil => exact absurd rfl hne
  | cons e r =>
      have hce : computeQuery [] e fieldName ≠ [] := hsub e (List.mem_cons_self e r)
      simp only [assignQueryArrayElements]
      rw [assignTail_append]
      have hb : applyGroupFn [] firstFn (computeQuery [] e fieldName) ≠ [] := by
        rcases hfn with h | h | h <;> subst h
        · rw [applyGroupFn_where hce []]; simp
        · rw [applyGroupFn_orWhere hce []]; simp
        · rw [applyGroupFn_whereNot hce []]; simp
      intro hcontra
      exact hb (List.append_eq_nil.1 hcontra).1

/-! Classification lemmas: which dispatch rule concrete keys fall into. -/

/-- The operator tokens recognised by the dispatch chain. -/
def operatorKeys : List String :=
  ["$in", "$nin", "$gt", "$gte", "$lt", "$lte", "$eq", "$ne", "$exists",
   "$or", "$and", "$nor", "$not", "$raw", "$ilike"]

/-- A key that is a plain field name, not an operator token (the data model
distinguishes field names from operator tokens). -/
def isFieldKey (f : String) : Bool := !(operatorKeys.contains f)

/-- The atomic comparison operators of the claim, as an enumeration. -/
inductive CmpOp where
  | gt
  | gte
  | lt
  | lte
  | eq
  | ne

/-- Spec key of a comparison operator. -/
def cmpOpKey : CmpOp → String
  | .gt => "$gt"
  | .gte => "$gte"
  | .lt => "$lt"
  | .lte => "$lte"
  | .eq => "$eq"
  | .ne => "$ne"

/-- SQL operator string the adapter passes to `where` for a comparison
operator. -/
def cmpOpStr : CmpOp → String
  | .gt => ">"
  | .gte => ">="
  | .lt => "<"
  | .lte => "<="
  | .eq => "="
  | .ne => "!="

theorem classify_cmpKey (op : CmpOp) (v : FVal) :
    classifyEntry (cmpOpKey op) v = .rCmp (cmpOpStr op) := by
  cases op <;> simp [classifyEntry, cmpOpKey, cmpOpStr]

theorem classify_in_arr (vs : List FVal) : classifyEntry "$in" (FVal.varr vs) = .rIn := by
  simp [classifyEntry, isArr]

theorem classify_nin_arr (vs : List FVal) : classifyEntry "$nin" (FVal.varr vs) = .rNin := by
  simp [classifyEntry, isArr]

theorem classify_or_arr (vs : List FVal) : classifyEntry "$or" (FVal.varr vs) = .rOr := by
  simp [classifyEntry, isArr, fvalBeq]

theorem classify_and_arr (vs : List FVal) : classifyEntry "$and" (FVal.varr vs) = .rAnd := by
  simp [classifyEntry, isArr, fvalBeq]

theorem classify_nor_arr (vs : List FVal) : classifyEntry "$nor" (FVal.varr vs) = .rNor := by
  simp [classifyEntry, isArr, fvalBeq]

theorem classify_not (v : FVal) : classifyEntry "$not" v = .rNot := by
  simp [classifyEntry]

theorem classify_field_obj {f : String} (hf : isFieldKey f = true)
    (kvs : List (String × FVal)) : classifyEntry f (FVal.vobj kvs) = .rScope := by
  simp [isFieldKey, operatorKeys] at hf
  obtain ⟨h1, h2, h3, h4, h5, h6, h7, h8, h9, h10, h11, h12, h13, h14, h15⟩ := hf
  simp [classifyEntry, isArr, isObjType, fvalBeq, h3, h4, h5, h6, h7, h8, h13, h14]

/-! Per-rule unfolding equations for `computeEntry`. -/

theorem computeEntry_of_rIn {key : String} {v : FVal} (h : classifyEntry key v = .rIn)
    (q : Builder) (fieldName : String) :
    computeEntry q key v fieldName = whereAtom q (Atom.inList fieldName (arrElems v)) := by
  simp only [computeEntry, h]

theorem computeEntry_of_rNin {key : String} {v : FVal} (h : classifyEntry key v = .rNin)
    (q : Builder) (fieldName : String) :
    computeEntry q key v fieldName = whereAtom q (Atom.notInList fieldName (arrElems v)) := by
  simp only [computeEntry, h]

theorem computeEntry_of_rCmp {key : String} {v : FVal} {op : String}
    (h : classifyEntry key v = .rCmp op) (q : Builder) (fieldName : String) :
    computeEntry q key v fieldName = whereAtom q (Atom.cmp fieldName op v) := by
  simp only [computeEntry, h]

theorem computeEntry_of_rExists {key : String} {v : FVal} {b : Bool}
    (h : classifyEntry key v = .rExists b) (q : Builder) (fieldName : String) :
    computeEntry q key v fieldName =
      whereAtom q (if b then Atom.notNull fieldName else Atom.isNull fieldName) := by
  simp only [computeEntry, h]

theorem computeEntry_of_rOr {key : String} {v : FVal} (h : classifyEntry key v = .rOr)
    (q : Builder) (fieldName : String) :
    computeEntry q key v fieldName =
      applyGroupFn q "where"
        (assignQueryArrayElements [] (arrElems v) "where" "orWhere" fieldName) := by
  simp only [computeEntry, h]

theorem computeEntry_of_rAnd {key : String} {v : FVal} (h : classifyEntry key v = .rAnd)
    (q : Builder) (fieldName : String) :
    computeEntry q key v fieldName =
      applyGroupFn q "where"
        (assignQueryArrayElements [] (arrElems v) "where" "" fieldName) := by
  simp only [computeEntry, h]

theorem computeEntry_of_rNor {key : String} {v : FVal} (h : classifyEntry key v = .rNor)
    (q : Builder) (fieldName : String) :
    computeEntry q key v fieldName =
      applyGroupFn q "where"
        (assignQueryArrayElements [] (arrElems v) "whereNot" "" fieldName) := by
  simp only [computeEntry, h]

theorem computeEntry_of_rNot {key : String} {v : FVal} (h : classifyEntry key v = .rNot)
    (q : Builder) (fieldName : String) :
    computeEntry q key v fieldName =
      (if isObjType v then applyGroupFn q "whereNot" (computeQuery [] v fieldName)
       else whereNotAtom q (Atom.cmp fieldName "=" v)) := by
  simp only [computeEntry, h]

theorem computeEntry_of_rScope {key : String} {v : FVal} (h : classifyEntry key v = .rScope)
    (q : Builder) (fieldName : String) :
    computeEntry q key v fieldName = applyGroupFn q "where" (computeQuery [] v key) := by
  simp only [computeEntry, h]

theorem computeEntry_of_rDefault {key : String} {v : FVal}
    (h : classifyEntry key v = .rDefault) (q : Builder) (fieldName : String) :
    computeEntry q key v fieldName = whereAtom q (Atom.cmp key "=" v) := by
  simp only [computeEntry, h]

theorem computeQuery_single (k : String) (v : FVal) (f : String) :
    computeQuery [] (FVal.vobj [(k, v)]) f = computeEntry [] k v f := by
  simp [computeQuery, computeEntries]

/-! Filter specs built purely from the logical operators over atomic
comparisons, with a direct boolean-algebra oracle. -/

mutual

/-- A filter spec built purely from `$and`, `$or`, `$not` and `$nor` over
atomic comparisons on plain field names.  `cmpA f op v` stands for the spec
fragment `{f: {$op: v}}`. -/
inductive QSpec where
  | cmpA (field : String) (op : CmpOp) (v : FVal)
  | inA (field : String) (vs : List FVal)
  | ninA (field : String) (vs : List FVal)
  | andS (l : QList)
  | orS (l : QList)
  | norS (l : QList)
  | notS (s : QSpec)

/-- A sequence of sub-specs. -/
inductive QList where
  | nil
  | cons (head : QSpec) (tail : QList)

end

mutual

/-- The JavaScript filter object a `QSpec` denotes. -/
def qspecToFVal : QSpec → FVal
  | .cmpA f op v => .vobj [(f, .vobj [(cmpOpKey op, v)])]
  | .inA f vs => .vobj [(f, .vobj [("$in", .varr vs)])]
  | .ninA f vs => .vobj [(f, .vobj [("$nin", .varr vs)])]
  | .andS l => .vobj [("$and", .varr (qlistToFVals l))]
  | .orS l => .vobj [("$or", .varr (qlistToFVals l))]
  | .norS l => .vobj [("$nor", .varr (qlistToFVals l))]
  | .notS s => .vobj [("$not", qspecToFVal s)]

def qlistToFVals : QList → List FVal
  | .nil => []
  | .cons s rest => qspecToFVal s :: qlistToFVals rest

end

mutual

/-- Direct boolean-algebra evaluation of a spec against a row: atoms by
their comparison semantics, `$and` as conjunction, `$or` as disjunction,
`$nor` as the negated disjunction, `$not` as negation. -/
def qspecEval (row : Row) : QSpec → Bool
  | .cmpA f op v => evalCmpStr (cmpOpStr op) (rowGet row f) v
  | .inA f vs => vs.any (fun w => fvalBeq (rowGet row f) w)
  | .ninA f vs => !(vs.any (fun w => fvalBeq (rowGet row f) w))
  | .andS l => qlistAll row l
  | .orS l => qlistAny row l
  | .norS l => qlistNone row l
  | .notS s => !(qspecEval row s)

def qlistAll (row : Row) : QList → Bool
  | .nil => true
  | .cons s rest => qspecEval row s && qlistAll row rest

def qlistAny (row : Row) : QList → Bool
  | .nil => false
  | .cons s rest => qspecEval row s || qlistAny row rest

def qlistNone (row : Row) : QList → Bool
  | .nil => true
  | .cons s rest => !(qspecEval row s) && qlistNone row rest

end

def qlistNonempty : QList → Bool
  | .nil => false
  | .cons _ _ => true

mutual

/-- A spec is well formed when its atoms use plain field names and every
logical operator is applied to a non-empty sequence of sub-specs. -/
def qspecWF : QSpec → Bool
  | .cmpA f _ _ => isFieldKey f
  | .inA f _ => isFieldKey f
  | .ninA f _ => isFieldKey f
  | .andS l => qlistNonempty l && qlistWF l
  | .orS l => qlistNonempty l && qlistWF l
  | .norS l => qlistNonempty l && qlistWF l
  | .notS s => qspecWF s

def qlistWF : QList → Bool
  | .nil => true
  | .cons s rest => qspecWF s && qlistWF rest

end

theorem qlistToFVals_ne_nil {l : QList} (h : qlistNonempty l = true) :
    qlistToFVals l ≠ [] := by
  cases l <;> simp_all [qlistToFVals, qlistNonempty]

theorem qspecToFVal_isObj (s : QSpec) : isObjType (qspecToFVal s) = true := by
  cases s <;> simp [qspecToFVal, isObjType]

mutual

/-- For a well-formed spec, the compiled builder is non-empty and its truth
value over any row agrees with the boolean-algebra oracle. -/
theorem qspecSound (s : QSpec) (h : qspecWF s = true) :
    computeQuery [] (qspecToFVal s) "" ≠ [] ∧
      ∀ (rs : RawSem) (row : Row),
        evalClauses rs row (computeQuery [] (qspecToFVal s) "") = qspecEval row s := by
  match s with
  | .cmpA f op v =>
      have hf : isFieldKey f = true := by simpa [qspecWF] using h
      have hinner : computeQuery [] (FVal.vobj [(cmpOpKey op, v)]) f =
          [Clause.atom false false (Atom.cmp f (cmpOpStr op) v)] := by
        rw [computeQuery_single, computeEntry_of_rCmp (classify_cmpKey op v)]
        simp [whereAtom]
      have hshape : computeQuery [] (qspecToFVal (QSpec.cmpA f op v)) "" =
          [Clause.group false false [Clause.atom false false (Atom.cmp f (cmpOpStr op) v)]] := by
        simp only [qspecToFVal]
        rw [computeQuery_single, computeEntry_of_rScope (classify_field_obj hf _), hinner,
          applyGroupFn_where (by simp) []]
        simp
      refine ⟨by rw [hshape]; simp, ?_⟩
      intro rs row
      rw [hshape]
      simp [evalClauses_singleton, evalClause_group, evalClause_atom, evalAtom, qspecEval]
  | .inA f vs =>
      have hf : isFieldKey f = true := by simpa [qspecWF] using h
      have hinner : computeQuery [] (FVal.vobj [("$in", FVal.varr vs)]) f =
          [Clause.atom false false (Atom.inList f vs)] := by
        rw [computeQuery_single, computeEntry_of_rIn (classify_in_arr vs)]
        simp [whereAtom, arrElems]
      have hshape : computeQuery [] (qspecToFVal (QSpec.inA f vs)) "" =
          [Clause.group false false [Clause.atom false false (Atom.inList f vs)]] := by
        simp only [qspecToFVal]
        rw [computeQuery_single, computeEntry_of_rScope (classify_field_obj hf _), hinner,
          applyGroupFn_where (by simp) []]
        simp
      refine ⟨by rw [hshape]; simp, ?_⟩
      intro rs row
      rw [hshape]
      simp [evalClauses_singleton, evalClause_group, evalClause_atom, evalAtom, qspecEval]
  | .ninA f vs =>
      have hf : isFieldKey f = true := by simpa [qspecWF] using h
      have hinner : computeQuery [] (FVal.vobj [("$nin", FVal.varr vs)]) f =
          [Clause.atom false false (Atom.notInList f vs)] := by
        rw [computeQuery_single, computeEntry_of_rNin (classify_nin_arr vs)]
        simp [whereAtom, arrElems]
      have hshape : computeQuery [] (qspecToFVal (QSpec.ninA f vs)) "" =
          [Clause.group false false [Clause.atom false false (Atom.notInList f vs)]] := by
        simp only [qspecToFVal]
        rw [computeQuery_single, computeEntry_of_rScope (classify_field_obj hf _), hinner,
          applyGroupFn_where (by simp) []]
        simp
      refine ⟨by rw [hshape]; simp, ?_⟩
      intro rs row
      rw [hshape]
      simp [evalClauses_singleton, evalClause_group, evalClause_atom, evalAtom, qspecEval]
  | .andS l =>
      have hparts : qlistNonempty l = true ∧ qlistWF l = true := by
        simpa [qspecWF, Bool.and_eq_true] using h
      obtain ⟨hlsub, hleval⟩ := qlistSound l hparts.2
      have hsub : ∀ e ∈ qlistToFVals l, computeQuery [] e "" ≠ [] := hlsub
      have hinner_ne : assignQueryArrayElements [] (qlistToFVals l) "where" "" "" ≠ [] :=
        assignQueryArrayElements_ne_nil "" "where" "" (qlistToFVals_ne_nil hparts.1) hsub
          (Or.inl rfl)
      have hshape : computeQuery [] (qspecToFVal (QSpec.andS l)) "" =
          [Clause.group false false
            (assignQueryArrayElements [] (qlistToFVals l) "where" "" "")] := by
        simp only [qspecToFVal]
        rw [computeQuery_single, computeEntry_of_rAnd (classify_and_arr _)]
        simp only [arrElems]
        rw [applyGroupFn_where hinner_ne []]
        simp
      refine ⟨by rw [hshape]; simp, ?_⟩
      intro rs row
      rw [hshape]
      rw [evalClauses_singleton, evalClause_group]
      simp only [if_neg (by simp : ¬(false = true))]
      rw [andGroup_eval rs row "" hsub]
      simpa [qspecEval] using (hleval rs row).2.1
  | .orS l =>
      have hparts : qlistNonempty l = true ∧ qlistWF l = true := by
        simpa [qspecWF, Bool.and_eq_true] using h
      obtain ⟨hlsub, hleval⟩ := qlistSound l hparts.2
      have hsub : ∀ e ∈ qlistToFVals l, computeQuery [] e "" ≠ [] := hlsub
      have hinner_ne : assignQueryArrayElements [] (qlistToFVals l) "where" "orWhere" "" ≠ [] :=
        assignQueryArrayElements_ne_nil "" "where" "orWhere" (qlistToFVals_ne_nil hparts.1) hsub
          (Or.inl rfl)
      have hshape : computeQuery [] (qspecToFVal (QSpec.orS l)) "" =
          [Clause.group false false
            (assignQueryArrayElements [] (qlistToFVals l) "where" "orWhere" "")] := by
        simp only [qspecToFVal]
        rw [computeQuery_single, computeEntry_of_rOr (classify_or_arr _)]
        simp only [arrElems]
        rw [applyGroupFn_where hinner_ne []]
        simp
      refine ⟨by rw [hshape]; simp, ?_⟩
      intro rs row
      rw [hshape]
      rw [evalClauses_singleton, evalClause_group]
      simp only [if_neg (by simp : ¬(false = true))]
      rw [orGroup_eval rs row "" (qlistToFVals_ne_nil hparts.1) hsub]
      simpa [qspecEval] using (hleval rs row).1
  | .norS l =>
      have hparts : qlistNonempty l = true ∧ qlistWF l = true := by
        simpa [qspecWF, Bool.and_eq_true] using h
      obtain ⟨hlsub, hleval⟩ := qlistSound l hparts.2
      have hsub : ∀ e ∈ qlistToFVals l, computeQuery [] e "" ≠ [] := hlsub
      have hinner_ne : assignQueryArrayElements [] (qlistToFVals l) "whereNot" "" "" ≠ [] :=
        assignQueryArrayElements_ne_nil "" "whereNot" "" (qlistToFVals_ne_nil hparts.1) hsub
          (Or.inr (Or.inr rfl))
      have hshape : computeQuery [] (qspecToFVal (QSpec.norS l)) "" =
          [Clause.group false false
            (assignQueryArrayElements [] (qlistToFVals l) "whereNot" "" "")] := by
        simp only [qspecToFVal]
        rw [computeQuery_single, computeEntry_of_rNor (classify_nor_arr _)]
        simp only [arrElems]
        rw [applyGroupFn_where hinner_ne []]
        simp
      refine ⟨by rw [hshape]; simp, ?_⟩
      intro rs row
      rw [hshape]
      rw [evalClauses_singleton, evalClause_group]
      simp only [if_neg (by simp : ¬(false = true))]
      rw [norGroup_eval rs row "" hsub]
      simpa [qspecEval] using (hleval rs row).2.2
  | .notS s2 =>
      have hwf : qspecWF s2 = true := by simpa [qspecWF] using h
      obtain ⟨hcne, hceval⟩ := qspecSound s2 hwf
      have hshape : computeQuery [] (qspecToFVal (QSpec.notS s2)) "" =
          [Clause.group false true (computeQuery [] (qspecToFVal s2) "")] := by
        simp only [qspecToFVal]
        rw [computeQuery_single, computeEntry_of_rNot (classify_not _)]
        rw [if_pos (qspecToFVal_isObj s2)]
        rw [applyGroupFn_whereNot hcne []]
        simp
      refine ⟨by rw [hshape]; simp, ?_⟩
      intro rs row
      rw [hshape]
      rw [evalClauses_singleton, evalClause_group]
      simp [hceval rs row, qspecEval]
termination_by sizeOf s

/-- List version of `qspecSound`: all elements compile non-empty, and the
three folds used by `$or`, `$and` and `$nor` agree with the oracle. -/
theorem qlistSound (l : QList) (h : qlistWF l = true) :
    (∀ e ∈ qlistToFVals l, computeQuery [] e "" ≠ []) ∧
      ∀ (rs : RawSem) (row : Row),
        ((qlistToFVals l).any (fun e => evalClauses rs row (computeQuery [] e "")) =
            qlistAny row l) ∧
          ((qlistToFVals l).all (fun e => evalClauses rs row (computeQuery [] e "")) =
            qlistAll row l) ∧
          ((qlistToFVals l).all (fun e => !(evalClauses rs row (computeQuery [] e ""))) =
            qlistNone row l) := by
  match l with
  | .nil =>
      refine ⟨by simp [qlistToFVals], ?_⟩
      intro rs row
      simp [qlistToFVals, qlistAny, qlistAll, qlistNone]
  | .cons s rest =>
      have hparts : qspecWF s = true ∧ qlistWF rest = true := by
        simpa [qlistWF, Bool.and_eq_true] using h
      obtain ⟨hsne, hseval⟩ := qspecSound s hparts.1
      obtain ⟨hrsub, hreval⟩ := qlistSound rest hparts.2
      refine ⟨?_, ?_⟩
      · intro e he
        simp only [qlistToFVals, List.mem_cons] at he
        rcases he with he | he
        · exact he ▸ hsne
        · exact hrsub e he
      · intro rs row
        have hr := hreval rs row
        simp only [qlistToFVals, List.any_cons, List.all_cons, qlistAny, qlistAll, qlistNone,
          hseval rs row, hr.1, hr.2.1, hr.2.2]
        exact ⟨trivial, trivial, trivial⟩
termination_by sizeOf l

end

/-! Claim theorems. -/

/-- C7: for every builder and scope field, compiling a spec that is not a
mapping — null, a scalar, or an array — returns the builder unchanged. -/
theorem computeQuery_non_mapping_noop (q : Builder) (spec : FVal) (fieldName : String)
    (h : isMapping spec = false) : computeQuery q spec fieldName = q := by
  cases spec <;> simp [computeQuery] <;> simp [isMapping] at h

theorem computeQuery_non_mapping_noop_witness :
    isMapping (FVal.varr [FVal.vint 1]) = false ∧
      computeQuery [Clause.atom false false (Atom.isNull "a")] (FVal.varr [FVal.vint 1]) "" =
        [Clause.atom false false (Atom.isNull "a")] :=
  ⟨by simp [isMapping],
    computeQuery_non_mapping_noop _ (FVal.varr [FVal.vint 1]) "" (by simp [isMapping])⟩

/-- C10: a `$exists` entry whose value is a non-boolean scalar (1, 0,
"true", ...) matches neither `$exists` rule and no null test is emitted;
it falls through to the default rule, an equality on a column literally
named `$exists` against that value. -/
theorem exists_nonboolean_default_equality (q : Builder) (v : FVal) (fieldName : String)
    (h : (∃ n, v = FVal.vint n) ∨ (∃ s, v = FVal.vstr s)) :
    computeEntry q "$exists" v fieldName =
      q ++ [Clause.atom false false (Atom.cmp "$exists" "=" v)] := by
  have hcl : classifyEntry "$exists" v = .rDefault := by
    rcases h with ⟨n, rfl⟩ | ⟨s, rfl⟩ <;> simp [classifyEntry, isArr, isObjType, fvalBeq]
  rw [computeEntry_of_rDefault hcl]
  simp [whereAtom]

theorem exists_nonboolean_default_equality_witness :
    ((∃ n, FVal.vint 1 = FVal.vint n) ∨ (∃ s, FVal.vint 1 = FVal.vstr s)) ∧
      computeEntry [] "$exists" (FVal.vint 1) "age" =
        [Clause.atom false false (Atom.cmp "$exists" "=" (FVal.vint 1))] :=
  ⟨Or.inl ⟨1, rfl⟩, by
    simpa using
      exists_nonboolean_default_equality [] (FVal.vint 1) "age" (Or.inl ⟨1, rfl⟩)⟩

/-- C2: an entry whose key matches no operator rule and whose value is a
scalar compiles to an equality on the literal key against the value, for
every enclosing scope field; in particular `{age: {foo: "bar"}}` compiles
to an equality on column `foo`, discarding the `age` scope. -/
theorem default_rule_uses_literal_key (q : Builder) (key : String) (v : FVal)
    (scopeField : String)
    (hscalar : (∃ n, v = FVal.vint n) ∨ (∃ s, v = FVal.vstr s) ∨ (∃ b, v = FVal.vbool b))
    (hop : key ∉ ["$gt", "$gte", "$lt", "$lte", "$eq", "$ne", "$not", "$raw", "$ilike"])
    (hex : key = "$exists" → ∀ b, v ≠ FVal.vbool b) :
    computeEntry q key v scopeField = q ++ [Clause.atom false false (Atom.cmp key "=" v)] ∧
      ∀ (rs : RawSem) (row : Row),
        evalClauses rs row
            (computeQuery [] (FVal.vobj [("age", FVal.vobj [("foo", FVal.vstr "bar")])]) "") =
          fvalBeq (rowGet row "foo") (FVal.vstr "bar") := by
  constructor
  · have hcl : classifyEntry key v = .rDefault := by
      simp only [List.mem_cons, List.mem_singleton, not_or] at hop
      obtain ⟨hgt, hgte, hlt, hlte, heq, hne2, hnot, hraw, hilike⟩ := hop
      rcases hscalar with ⟨n, rfl⟩ | ⟨s, rfl⟩ | ⟨b, rfl⟩
      · simp [classifyEntry, isArr, isObjType, fvalBeq, hgt, hgte, hlt, hlte, heq, hne2,
          hnot, hraw, hilike]
      · simp [classifyEntry, isArr, isObjType, fvalBeq, hgt, hgte, hlt, hlte, heq, hne2,
          hnot, hraw, hilike]
      · by_cases hk : key = "$exists"
        · exact absurd rfl (hex hk b)
        · simp [classifyEntry, isArr, isObjType, fvalBeq, hgt, hgte, hlt, hlte, heq, hne2,
            hnot, hraw, hilike, hk]
    rw [computeEntry_of_rDefault hcl]
    simp [whereAtom]
  · intro rs row
    have hinner : computeQuery [] (FVal.vobj [("foo", FVal.vstr "bar")]) "age" =
        [Clause.atom false false (Atom.cmp "foo" "=" (FVal.vstr "bar"))] := by
      rw [computeQuery_single,
        computeEntry_of_rDefault (by simp [classifyEntry, isArr, isObjType, fvalBeq])]
      simp [whereAtom]
    rw [computeQuery_single,
      computeEntry_of_rScope (classify_field_obj (by simp [isFieldKey, operatorKeys]) _),
      hinner, applyGroupFn_where (by simp) []]
    simp [evalClauses_singleton, evalClause_group, evalClause_atom, evalAtom, evalCmpStr]

theorem default_rule_uses_literal_key_witness :
    computeEntry [] "foo" (FVal.vstr "bar") "age" =
        [Clause.atom false false (Atom.cmp "foo" "=" (FVal.vstr "bar"))] ∧
      evalClauses rawSemFalse [("foo", FVal.vstr "bar"), ("age", FVal.vint 1)]
          (computeQuery [] (FVal.vobj [("age", FVal.vobj [("foo", FVal.vstr "bar")])]) "") =
        true := by
  have h := default_rule_uses_literal_key [] "foo" (FVal.vstr "bar") "age"
    (Or.inr (Or.inl ⟨"bar", rfl⟩)) (by simp) (by simp)
  refine ⟨by simpa using h.1, ?_⟩
  rw [h.2 rawSemFalse _]
  simp [rowGet, lookupKey, fvalBeq]

/-- C8: `removeById` returns the id whether or not a matching row existed,
removes every row carrying that identity, leaves the table unchanged when
the id is absent, and is idempotent. -/
theorem removeById_idempotent_returns_id (cfg : AdapterCfg) (db : DB) (id : FVal) :
    (removeByIdModel cfg db id).2 = id ∧
      (∀ r ∈ (removeByIdModel cfg db id).1, fvalBeq (rowGet r cfg.idFieldName) id = false) ∧
      ((∀ r ∈ db, fvalBeq (rowGet r cfg.idFieldName) id = false) →
        (removeByIdModel cfg db id).1 = db) ∧
      removeByIdModel cfg (removeByIdModel cfg db id).1 id = removeByIdModel cfg db id := by
  refine ⟨rfl, ?_, ?_, ?_⟩
  · intro r hr
    simp only [removeByIdModel, List.mem_filter, Bool.not_eq_true'] at hr
    exact hr.2
  · intro habs
    simp only [removeByIdModel]
    exact List.filter_eq_self.mpr (fun r hr => by simp [habs r hr])
  · simp only [removeByIdModel, List.filter_filter]
    simp

theorem removeById_idempotent_returns_id_witness :
    (removeByIdModel ⟨"id", false⟩ [[("id", FVal.vint 1)]] (FVal.vint 2)).2 = FVal.vint 2 ∧
      (removeByIdModel ⟨"id", false⟩ [[("id", FVal.vint 1)]] (FVal.vint 2)).1 =
        [[("id", FVal.vint 1)]] ∧
      removeByIdModel ⟨"id", false⟩
          (removeByIdModel ⟨"id", false⟩ [[("id", FVal.vint 1)]] (FVal.vint 2)).1
          (FVal.vint 2) =
        removeByIdModel ⟨"id", false⟩ [[("id", FVal.vint 1)]] (FVal.vint 2) := by
  have h := removeById_idempotent_returns_id ⟨"id", false⟩ [[("id", FVal.vint 1)]] (FVal.vint 2)
  refine ⟨h.1, h.2.2.1 ?_, h.2.2.2⟩
  intro r hr
  simp only [List.mem_singleton] at hr
  subst hr
  simp [rowGet, lookupKey, fvalBeq]

/-- C6: in counting mode `createQuery` suppresses sort, limit and offset
for every parameter value, and marks the query as a row-count aggregate. -/
theorem createQuery_counting_suppresses (cfg : AdapterCfg) (params : Option QueryParams) :
    (createQuery cfg params true).counting = true ∧
      (createQuery cfg params true).orders = [] ∧
      (createQuery cfg params true).limit = none ∧
      (createQuery cfg params true).offset = none := by
  cases params with
  | none => simp [createQuery, KQuery.countStar]
  | some p =>
      obtain ⟨pq, ps, psf, pst, pl, po⟩ := p
      cases ps <;> cases psf <;> cases pl <;> cases po <;>
        simp [createQuery, KQuery.countStar, KQuery.setLimit, KQuery.setOffset,
          KQuery.orderBy, KQuery.orderByRaw, applySort] <;>
        split_ifs <;> simp

/-- C5 (amended): a `$nor` entry over a sequence of sub-specs compiles to a
group satisfied exactly when every element's compiled predicate is false
(NOT(e0) AND NOT(e1) AND ...), provided every element compiles to at least
one predicate; an element compiling to no predicate is skipped rather than
negated. -/
theorem nor_group_negated_conjunction (l : List FVal) (fieldName : String) (rs : RawSem)
    (row : Row) (h : ∀ e ∈ l, computeQuery [] e fieldName ≠ []) :
    evalClauses rs row (computeQuery [] (FVal.vobj [("$nor", FVal.varr l)]) fieldName) =
      l.all (fun e => !(evalClauses rs row (computeQuery [] e fieldName))) := by
  rw [computeQuery_single, computeEntry_of_rNor (classify_nor_arr _)]
  simp only [arrElems]
  cases l with
  | nil => simp [assignQueryArrayElements, applyGroupFn, evalClauses_nil]
  | cons e r =>
      have hinner_ne :=
        assignQueryArrayElements_ne_nil fieldName "whereNot" ""
          (by simp : (e :: r : List FVal) ≠ []) h (Or.inr (Or.inr rfl))
      rw [applyGroupFn_where hinner_ne []]
      simp only [List.nil_append]
      rw [evalClauses_singleton, evalClause_group]
      simp only [if_neg (by simp : ¬(false = true))]
      rw [norGroup_eval rs row fieldName h]

/-- C5 counterexample: the claim as stated fails for the sub-spec sequence
`[{}]` — the empty mapping compiles to no predicate, the negated group is
dropped entirely, and the row is accepted although NOT(e0) is false. -/
theorem nor_group_negated_conjunction_cex :
    evalClauses rawSemFalse []
        (computeQuery [] (FVal.vobj [("$nor", FVal.varr [FVal.vobj []])]) "") = true ∧
      (([FVal.vobj []] : List FVal).all
        (fun e => !(evalClauses rawSemFalse [] (computeQuery [] e "")))) = false := by
  constructor
  · rw [computeQuery_single, computeEntry_of_rNor (classify_nor_arr _)]
    simp [arrElems, assignQueryArrayElements, assignTail, computeQuery, computeEntries,
      applyGroupFn, evalClauses_nil]
  · simp [computeQuery, computeEntries, evalClauses_nil]

theorem nor_group_negated_conjunction_witness :
    (∀ e ∈ ([FVal.vobj [("a", FVal.vint 1)]] : List FVal), computeQuery [] e "" ≠ []) ∧
      evalClauses rawSemFalse []
          (computeQuery []
            (FVal.vobj [("$nor", FVal.varr [FVal.vobj [("a", FVal.vint 1)]])]) "") =
        ([FVal.vobj [("a", FVal.vint 1)]] : List FVal).all
          (fun e => !(evalClauses rawSemFalse [] (computeQuery [] e ""))) := by
  have hsub : ∀ e ∈ ([FVal.vobj [("a", FVal.vint 1)]] : List FVal),
      computeQuery [] e "" ≠ [] := by
    intro e he
    simp only [List.mem_singleton] at he
    subst he
    rw [computeQuery_single,
      computeEntry_of_rDefault (by simp [classifyEntry, isArr, isObjType, fvalBeq])]
    simp [whereAtom]
  exact ⟨hsub, nor_group_negated_conjunction _ "" rawSemFalse [] hsub⟩

/-- C1 (amended): for every filter spec built purely from `$and`, `$or`,
`$not`, `$nor` over atomic comparisons on plain field names, in which every
operator sequence is non-empty, the compiled predicate's truth value over
any row equals the direct boolean-algebra evaluation of the spec. -/
theorem filter_compile_matches_boolean_oracle (s : QSpec) (rs : RawSem) (row : Row)
    (h : qspecWF s = true) :
    evalClauses rs row (computeQuery [] (qspecToFVal s) "") = qspecEval row s :=
  (qspecSound s h).2 rs row

/-- C1 counterexample: the claim as stated fails at the spec `{$or: []}` —
the empty disjunction compiles to no predicate, accepting every row, while
its boolean-algebra value is false. -/
theorem filter_compile_matches_boolean_oracle_cex :
    evalClauses rawSemFalse []
        (computeQuery [] (qspecToFVal (QSpec.orS QList.nil)) "") = true ∧
      qspecEval [] (QSpec.orS QList.nil) = false := by
  constructor
  · simp only [qspecToFVal, qlistToFVals]
    rw [computeQuery_single, computeEntry_of_rOr (classify_or_arr _)]
    simp [arrElems, assignQueryArrayElements, applyGroupFn, evalClauses_nil]
  · simp [qspecEval, qlistAny]

theorem filter_compile_matches_boolean_oracle_witness :
    qspecWF
        (QSpec.andS (QList.cons (QSpec.cmpA "age" CmpOp.gt (FVal.vint 30))
          (QList.cons (QSpec.notS (QSpec.cmpA "age" CmpOp.gte (FVal.vint 50)))
            QList.nil))) = true ∧
      evalClauses rawSemFalse [("age", FVal.vint 40)]
          (computeQuery []
            (qspecToFVal
              (QSpec.andS (QList.cons (QSpec.cmpA "age" CmpOp.gt (FVal.vint 30))
                (QList.cons (QSpec.notS (QSpec.cmpA "age" CmpOp.gte (FVal.vint 50)))
                  QList.nil)))) "") =
        qspecEval [("age", FVal.vint 40)]
          (QSpec.andS (QList.cons (QSpec.cmpA "age" CmpOp.gt (FVal.vint 30))
            (QList.cons (QSpec.notS (QSpec.cmpA "age" CmpOp.gte (FVal.vint 50)))
              QList.nil))) := by
  have hwf : qspecWF
      (QSpec.andS (QList.cons (QSpec.cmpA "age" CmpOp.gt (FVal.vint 30))
        (QList.cons (QSpec.notS (QSpec.cmpA "age" CmpOp.gte (FVal.vint 50)))
          QList.nil))) = true := by
    simp [qspecWF, qlistWF, qlistNonempty, isFieldKey, operatorKeys]
  exact ⟨hwf, filter_compile_matches_boolean_oracle _ rawSemFalse _ hwf⟩

/-! Helper lemmas for the CRUD and schema claims. -/

theorem flatten_singletons {α : Type} : ∀ (l : List α), (l.map (fun a => [a])).flatten = l := by
  intro l
  induction l with
  | nil => simp
  | cons a rest ih => simp [ih]

theorem runInserts_length (prim : DB → Row → Except String (DB × List FVal)) :
    ∀ (entities : List Row) (db db2 : DB) (rss : List (List FVal)),
      runInserts prim db entities = .ok (db2, rss) → rss.length = entities.length := by
  intro entities
  induction entities with
  | nil =>
      intro db db2 rss h
      simp only [runInserts] at h
      obtain ⟨-, h2⟩ := Prod.mk.injEq .. ▸ (Except.ok.injEq .. ▸ h)
      simp [← h2]
  | cons e rest ih =>
      intro db db2 rss h
      cases hp : prim db e with
      | error err =>
          have hcomp : runInserts prim db (e :: rest) = .error err := by
            simp only [runInserts, hp]
          rw [hcomp] at h
          simp at h
      | ok p =>
          obtain ⟨dbx, rvs⟩ := p
          cases hrec : runInserts prim dbx rest with
          | error err =>
              have hcomp : runInserts prim db (e :: rest) = .error err := by
                simp only [runInserts, hp, hrec]
              rw [hcomp] at h
              simp at h
          | ok p2 =>
              obtain ⟨db3, rss2⟩ := p2
              have hcomp : runInserts prim db (e :: rest) = .ok (db3, rvs :: rss2) := by
                simp only [runInserts, hp, hrec]
              rw [hcomp] at h
              simp only [Except.ok.injEq, Prod.mk.injEq] at h
              rw [← h.2]
              simp [ih dbx db3 rss2 hrec]

theorem buildColumns_error_of_bad (vocab : List String) :
    ∀ (fields : List FieldDef),
      (∃ f ∈ fields, f.virtual = false ∧ vocab.contains f.columnType = false) →
      ∃ e, buildColumns vocab fields = .error e := by
  intro fields
  induction fields with
  | nil =>
      intro h
      obtain ⟨f, hf, -⟩ := h
      simp at hf
  | cons g rest ih =>
      intro h
      by_cases hv : g.virtual = true
      · have hrest : ∃ f ∈ rest, f.virtual = false ∧ vocab.contains f.columnType = false := by
          obtain ⟨f, hf, hfv, hfc⟩ := h
          rcases List.mem_cons.1 hf with rfl | hf2
          · rw [hv] at hfv; cases hfv
          · exact ⟨f, hf2, hfv, hfc⟩
        obtain ⟨e, he⟩ := ih hrest
        exact ⟨e, by simp [buildColumns, hv, he]⟩
      · by_cases hc : vocab.contains g.columnType = true
        · have hrest : ∃ f ∈ rest, f.virtual = false ∧ vocab.contains f.columnType = false := by
            obtain ⟨f, hf, hfv, hfc⟩ := h
            rcases List.mem_cons.1 hf with rfl | hf2
            · rw [hc] at hfc; cases hfc
            · exact ⟨f, hf2, hfv, hfc⟩
          obtain ⟨e, he⟩ := ih hrest
          have hc2 : g.columnType ∈ vocab := by simpa using hc
          exact ⟨e, by simp [buildColumns, hv, hc2, he]⟩
        · have hc2 : g.columnType ∉ vocab := by simpa using hc
          exact ⟨"Field " ++ g.columnName ++ " columnType " ++ g.columnType ++
            " is not a valid type.", by simp [buildColumns, hv, hc2]⟩

theorem findByIdModel_default_eq (rs : RawSem) (cfg : AdapterCfg) (db : DB) (id : FVal)
    (hcl : classifyEntry cfg.idFieldName id = .rDefault) :
    findByIdModel rs cfg db id =
      (db.filter (fun r => fvalBeq (rowGet r cfg.idFieldName) id)).head? := by
  unfold findByIdModel findOneModel runQueryRows
  have hq : createQuery cfg
      (some { emptyParams with query := FVal.vobj [(cfg.idFieldName, id)] }) false =
      { counting := false,
        wheres := [Clause.atom false false (Atom.cmp cfg.idFieldName "=" id)],
        orders := [], limit := none, offset := none } := by
    have hw : computeQuery [] (FVal.vobj [(cfg.idFieldName, id)]) "" =
        [Clause.atom false false (Atom.cmp cfg.idFieldName "=" id)] := by
      rw [computeQuery_single, computeEntry_of_rDefault hcl]
      simp [whereAtom]
    simp [createQuery, emptyParams, queryParamToObject, jsTruthy, sortTruthy, hw]
  rw [hq]
  congr 1
  apply List.filter_congr
  intro r hr
  simp [evalClauses_singleton, evalClause_atom, evalAtom, evalCmpStr]

/-- C3: the per-entity inserts of `insertMany` run inside one transaction:
a failing insert leaves the table's row set unchanged and surfaces one
error; when every insert succeeds returning one value per entity, the
returned identity list is positionally aligned with the input entity
order. -/
theorem insertMany_transactional_aligned (prim : DB → Row → Except String (DB × List FVal))
    (cfg : AdapterCfg) (db : DB) (entities : List Row) :
    (∀ e, (insertManyModel prim cfg db entities false).1 = .error e →
        (insertManyModel prim cfg db entities false).2 = db) ∧
      (∀ (db2 : DB) (rvs : List FVal),
        runInserts prim db entities = .ok (db2, rvs.map (fun r => [r])) →
          insertManyModel prim cfg db entities false =
              (.ok (rvs.map (unwrapIdValue cfg.idFieldName)), db2) ∧
            rvs.length = entities.length) := by
  constructor
  · intro e he
    unfold insertManyModel at he ⊢
    cases hr : runInserts prim db entities with
    | error e2 => simp [hr]
    | ok p => rw [hr] at he; simp at he
  · intro db2 rvs hr
    constructor
    · unfold insertManyModel
      rw [hr]
      simp [flatten_singletons]
    · have hlen := runInserts_length prim entities db db2 _ hr
      simpa using hlen

theorem insertMany_transactional_aligned_witness :
    (insertManyModel (fun db e => .ok (db ++ [e], [FVal.vint (Int.ofNat db.length)]))
          ⟨"id", false⟩ [] [[("a", FVal.vint 1)], [("a", FVal.vint 2)]] false =
        (.ok ([FVal.vint 0, FVal.vint 1].map (unwrapIdValue "id")),
          [[("a", FVal.vint 1)], [("a", FVal.vint 2)]]) ∧
      ([FVal.vint 0, FVal.vint 1] : List FVal).length =
        ([[("a", FVal.vint 1)], [("a", FVal.vint 2)]] : List Row).length) ∧
      (insertManyModel (fun _ _ => .error "dup") ⟨"id", false⟩ [[("k", FVal.vint 9)]]
          [[("a", FVal.vint 1)]] false).2 =
        [[("k", FVal.vint 9)]] := by
  constructor
  · exact (insertMany_transactional_aligned
      (fun db e => .ok (db ++ [e], [FVal.vint (Int.ofNat db.length)]))
      ⟨"id", false⟩ [] [[("a", FVal.vint 1)], [("a", FVal.vint 2)]]).2
      [[("a", FVal.vint 1)], [("a", FVal.vint 2)]] [FVal.vint 0, FVal.vint 1] (by rfl)
  · exact (insertMany_transactional_aligned (fun _ _ => .error "dup") ⟨"id", false⟩
      [[("k", FVal.vint 9)]] [[("a", FVal.vint 1)]]).1 "dup" (by rfl)

/-- C9 (amended): when the backend insert succeeds with a non-empty result
array, `insert` resolves the identity as the caller-supplied id whenever
that id is truthy — regardless of the `generated` mode, which `insert`
never consults — and otherwise as the backend's first returned value; the
chosen value is unwrapped when it is an object keyed by the identity
field, and the row is re-read by that identity. -/
theorem insert_resolves_and_rereads (prim : DB → Row → Except String (DB × List FVal))
    (rs : RawSem) (cfg : AdapterCfg) (db : DB) (entity : Row) (db2 : DB) (res : List FVal)
    (hp : prim db entity = .ok (db2, res)) (hne : res.isEmpty = false) :
    insertModel prim rs cfg db entity =
      (.ok (rowFVal (findByIdModel rs cfg db2
        (unwrapIdValue cfg.idFieldName
          (if jsTruthy (rowGet entity cfg.idFieldName) then rowGet entity cfg.idFieldName
           else res.headD FVal.vundefined)))), db2) := by
  unfold insertModel
  rw [hp]
  simp only [hne, Bool.false_eq_true, if_false]

/-- C9 counterexample: a backend that stores and returns id 42 for an
entity carrying id 7 with `generated = "auto"`.  The claim's resolution
rule picks the backend value 42 and the re-read finds the stored row, but
the code honors the caller's 7 and the re-read finds nothing. -/
theorem insert_resolves_and_rereads_cex :
    (insertModel
          (fun db _ => .ok (db ++ [[("id", FVal.vint 42), ("name", FVal.vstr "x")]],
            [FVal.vint 42]))
          rawSemFalse ⟨"id", false⟩ [] [("id", FVal.vint 7), ("name", FVal.vstr "x")]).1 =
        .ok FVal.vundefined ∧
      specResolveInsertId (some "auto") "id" [("id", FVal.vint 7), ("name", FVal.vstr "x")]
          [FVal.vint 42] = FVal.vint 42 ∧
      rowFVal (findByIdModel rawSemFalse ⟨"id", false⟩
          [[("id", FVal.vint 42), ("name", FVal.vstr "x")]] (FVal.vint 42)) =
        FVal.vobj [("id", FVal.vint 42), ("name", FVal.vstr "x")] ∧
      FVal.vundefined ≠ FVal.vobj [("id", FVal.vint 42), ("name", FVal.vstr "x")] := by
  refine ⟨?_, ?_, ?_, by simp⟩
  · unfold insertModel
    simp only []
    have h7 : findByIdModel rawSemFalse ⟨"id", false⟩
        [[("id", FVal.vint 42), ("name", FVal.vstr "x")]] (FVal.vint 7) = none := by
      rw [findByIdModel_default_eq rawSemFalse ⟨"id", false⟩ _ _
        (by simp [classifyEntry, isArr, isObjType, fvalBeq])]
      simp [rowGet, lookupKey, fvalBeq]
    simp [jsTruthy, rowGet, lookupKey, unwrapIdValue, isObjType, h7, rowFVal]
  · simp [specResolveInsertId, isUndefined, rowGet, lookupKey, unwrapIdValue, isObjType]
  · rw [findByIdModel_default_eq rawSemFalse ⟨"id", false⟩ _ _
      (by simp [classifyEntry, isArr, isObjType, fvalBeq])]
    simp [rowGet, lookupKey, fvalBeq, rowFVal]

theorem insert_resolves_and_rereads_witness :
    insertModel (fun db e => .ok (db ++ [e], [FVal.vint 7])) rawSemFalse ⟨"id", false⟩ []
        [("id", FVal.vint 7)] =
      (.ok (rowFVal (findByIdModel rawSemFalse ⟨"id", false⟩ [[("id", FVal.vint 7)]]
        (unwrapIdValue "id"
          (if jsTruthy (rowGet [("id", FVal.vint 7)] "id") then rowGet [("id", FVal.vint 7)] "id"
           else ([FVal.vint 7] : List FVal).headD FVal.vundefined)))), [[("id", FVal.vint 7)]]) :=
  insert_resolves_and_rereads (fun db e => .ok (db ++ [e], [FVal.vint 7])) rawSemFalse
    ⟨"id", false⟩ [] [("id", FVal.vint 7)] [[("id", FVal.vint 7)]] [FVal.vint 7] rfl rfl

/-- C4 (amended): a non-virtual field with a columnType outside the
builder's vocabulary makes `createTable` fail and the create-table DDL is
never applied — the resulting schema is exactly the drop-phase result, so
unless `dropTableIfExists` is false a pre-existing table of that name has
already been dropped before the failure. -/
theorem createTable_invalid_type_fails_after_drop (vocab : List String) (tableName : String)
    (svcFields : List FieldDef) (svcIndexes : Option (List IndexDef)) (st : SchemaState)
    (fields : List FieldDef) (opts : CreateTableOpts)
    (hbad : ∃ f ∈ fields, f.virtual = false ∧ vocab.contains f.columnType = false) :
    (createTableModel vocab tableName svcFields svcIndexes st (some fields) opts).1.isSome =
        true ∧
      (createTableModel vocab tableName svcFields svcIndexes st (some fields) opts).2 =
        (if opts.dropTableIfExists ≠ some false ∧ hasTable st tableName = true then
          dropTableModel st tableName
         else st) := by
  obtain ⟨e, he⟩ := buildColumns_error_of_bad vocab fields hbad
  unfold createTableModel
  simp [he]

/-- C4 counterexample: with a pre-existing `users` table, an invalid
columnType makes the operation fail, yet the pre-existing table has been
dropped — contradicting the claim that no DDL at all is issued. -/
theorem createTable_invalid_type_fails_after_drop_cex :
    (createTableModel ["string", "integer"] "users" [] none
          [("users", ⟨[], []⟩)]
          (some [⟨"a", "bogus", false, none, none, none, none, false⟩])
          ⟨none, false⟩).1.isSome = true ∧
      (createTableModel ["string", "integer"] "users" [] none
          [("users", ⟨[], []⟩)]
          (some [⟨"a", "bogus", false, none, none, none, none, false⟩])
          ⟨none, false⟩).2 = [] ∧
      hasTable [("users", (⟨[], []⟩ : TableDef))] "users" = true := by
  refine ⟨rfl, rfl, rfl⟩

theorem createTable_invalid_type_fails_after_drop_witness :
    (createTableModel ["string", "integer"] "users" [] none
          [("users", ⟨[], []⟩)]
          (some [⟨"a", "bogus", false, none, none, none, none, false⟩])
          ⟨none, false⟩).1.isSome = true ∧
      (createTableModel ["string", "integer"] "users" [] none
          [("users", ⟨[], []⟩)]
          (some [⟨"a", "bogus", false, none, none, none, none, false⟩])
          ⟨none, false⟩).2 =
        (if (⟨none, false⟩ : CreateTableOpts).dropTableIfExists ≠ some false ∧
            hasTable [("users", (⟨[], []⟩ : TableDef))] "users" = true then
          dropTableModel [("users", (⟨[], []⟩ : TableDef))] "users"
         else [("users", (⟨[], []⟩ : TableDef))]) :=
  createTable_invalid_type_fails_after_drop ["string", "integer"] "users" [] none
    [("users", ⟨[], []⟩)] [⟨"a", "bogus", false, none, none, none, none, false⟩]
    ⟨none, false⟩
    ⟨⟨"a", "bogus", false, none, none, none, none, false⟩, by simp, rfl, rfl⟩

end KnexAdapter
